import Mathlib

/-!
Verification of the Audinux waveform/marker core (`src/main_backup.py`).

The Python classes `MarkersManager`, `AudioProcessor.get_waveform_segment`
and `WaveformWidget._calculate_layout` are embedded shallowly:

* a `MarkersManager` object becomes an explicit state record, its methods
  become state-passing functions;
* the marker sidecar file becomes an explicit map from paths to
  `FileContent` (missing / corrupt / parsed JSON array), so that the
  `try/except` behaviour of `load_json` / `save_json` is modelled by a
  total function returning the default / a failure flag; a refined model
  (`ParsedFile`, `ParsedItem`, `JsonValue`) additionally captures line
  102's unguarded `m.get` / `int()` conversions, which raise on data that
  parses as JSON but is ill-typed;
* PCM samples become exact rationals (the Python code works on
  `float32` samples already normalised into `[-1, 1]`); zoom factors
  become rationals, `int(...)` truncation of a positive quotient becomes
  `Int.floor`, `np.ceil` becomes `Int.ceil`.
-/

namespace Audinux

/-- A named timestamp, mirroring the `Marker` dataclass (`name: str`, `ms: int`). -/
structure Marker where
  name : String
  ms : Int
deriving DecidableEq, Repr

/-- The sort key used by `add_marker` (`key=lambda m: m.ms`). -/
def markerLe (a b : Marker) : Prop := a.ms ≤ b.ms

instance : DecidableRel markerLe := fun a b => inferInstanceAs (Decidable (a.ms ≤ b.ms))

instance : IsTotal Marker markerLe := ⟨fun a b => le_total a.ms b.ms⟩

instance : IsTrans Marker markerLe := ⟨fun _ _ _ h1 h2 => le_trans h1 h2⟩

/-- One JSON object of the sidecar array.  Each field is optional because the
Python reader accesses it with `m.get('name', '')` / `m.get('ms', 0)`. -/
structure MarkerRecord where
  name : Option String
  ms : Option Int
deriving DecidableEq, Repr

/-- `Marker(m.get('name', ''), int(m.get('ms', 0)))` (line 102). -/
def markerOfRecord (r : MarkerRecord) : Marker :=
  { name := r.name.getD "", ms := r.ms.getD 0 }

/-- `m.__dict__` as written by `save` (line 107): both keys present. -/
def recordOfMarker (m : Marker) : MarkerRecord :=
  { name := some m.name, ms := some m.ms }

/-- Observable content of a sidecar file: absent, unparsable, or a parsed
JSON array of marker records. -/
inductive FileContent where
  | missing
  | corrupt
  | good (data : List MarkerRecord)
deriving DecidableEq, Repr

/-- A file system restricted to sidecar files: path ↦ content. -/
def FS : Type := String → FileContent

/-- `markers_path_for` (line 28): append the `.markers.json` suffix. -/
def markers_path_for (audio_path : String) : String :=
  audio_path ++ ".markers.json"

/-- `load_json` (lines 31-36): return the parsed data, or `default` whenever
opening or parsing raises (missing or corrupt file). -/
def load_json (fc : FileContent) (default : List MarkerRecord) : List MarkerRecord :=
  match fc with
  | .good data => data
  | _ => default

/-- State of a `MarkersManager` object (lines 91-97). -/
structure MarkersManager where
  markers : List Marker
  audio_path : Option String
  loop_enabled : Bool
  loop_start : Option Int
  loop_end : Option Int
deriving Repr

/-- `MarkersManager.__init__` (lines 92-97). -/
def initManager : MarkersManager :=
  { markers := [], audio_path := none,
    loop_enabled := false, loop_start := none, loop_end := none }

/-- `load_for` (lines 99-102): remember the path, read the sidecar file with
default `[]`, and rebuild the marker list from the records. -/
def load_for (st : MarkersManager) (fs : FS) (audio_path : String) : MarkersManager :=
  { st with
    audio_path := some audio_path,
    markers := (load_json (fs (markers_path_for audio_path)) []).map markerOfRecord }

/-- `save` (lines 104-108): `False` without an active path; otherwise attempt
`save_json`, whose `try/except` (lines 38-44) is modelled by the `writable`
flag — on success the sidecar now holds the serialised markers. -/
def save (st : MarkersManager) (fs : FS) (writable : Bool) : Bool × FS :=
  match st.audio_path with
  | none => (false, fs)
  | some p =>
    if writable then
      (true, fun q =>
        if q = markers_path_for p then FileContent.good (st.markers.map recordOfMarker)
        else fs q)
    else (false, fs)

/-- The in-place `self._markers.sort(key=lambda m: m.ms)` (line 112); Python's
stable sort is modelled by insertion sort on the same key. -/
def sortMarkers (l : List Marker) : List Marker :=
  l.insertionSort markerLe

/-- `add_marker` (lines 110-113): append, sort by `ms`, then `save`. -/
def add_marker (st : MarkersManager) (fs : FS) (writable : Bool)
    (position_ms : Int) (name : String) : MarkersManager × Bool × FS :=
  let st2 := { st with markers := sortMarkers (st.markers ++ [Marker.mk name position_ms]) }
  let r := save st2 fs writable
  (st2, r.1, r.2)

/-- `clear` (lines 118-120): empty the list, then `save`. -/
def clear (st : MarkersManager) (fs : FS) (writable : Bool) :
    MarkersManager × Bool × FS :=
  let st2 := { st with markers := [] }
  let r := save st2 fs writable
  (st2, r.1, r.2)

/-- `nearest_before` (lines 122-124): last element of the filtered list
`[m for m in self._markers if m.ms < ms]`. -/
def nearest_before (st : MarkersManager) (ms : Int) : Option Marker :=
  (st.markers.filter (fun m => m.ms < ms)).getLast?

/-- `nearest_after` (lines 126-128): first element of the filtered list
`[m for m in self._markers if m.ms > ms]`. -/
def nearest_after (st : MarkersManager) (ms : Int) : Option Marker :=
  (st.markers.filter (fun m => ms < m.ms)).head?

/-- `set_loop` (lines 130-133): store both arguments as given; enabled iff
both are present and `start_ms < end_ms`. -/
def set_loop (st : MarkersManager) (start_ms end_ms : Option Int) : MarkersManager :=
  { st with
    loop_start := start_ms,
    loop_end := end_ms,
    loop_enabled :=
      match start_ms, end_ms with
      | some s, some e => decide (s < e)
      | _, _ => false }

/-- `should_loop` (lines 135-139): when enabled with both bounds present and
the position at or past the end, return the start; otherwise `None`. -/
def should_loop (st : MarkersManager) (current_ms : Int) : Option Int :=
  if st.loop_enabled then
    match st.loop_start, st.loop_end with
    | some s, some e => if current_ms ≥ e then some s else none
    | _, _ => none
  else none

/-! ### Refined sidecar parsing

`load_json` (lines 31-36) guards only `open` and `json.load`; the
comprehension on line 102,
`[Marker(m.get('name', ''), int(m.get('ms', 0))) for m in data]`, runs
outside any `try/except`.  The coarse `FileContent.good` above types every
parsed file as well-formed records; the model below keeps the actually
parsed JSON, on which line 102 can raise. -/

/-- A parsed JSON value as it can appear under the `name` / `ms` keys.
`jint` covers the integral values (JSON numbers — Python bools are ints);
`jstr` a string, which `int()` accepts only as an integer numeral;
`jother` null, arrays and objects, on which `int()` raises `TypeError`. -/
inductive JsonValue where
  | jint (n : Int)
  | jstr (s : String)
  | jother
deriving DecidableEq, Repr

/-- One element of a parsed sidecar array: a JSON object, of which line 102
reads only the values at `name` and `ms` (each absent or some value), or any
non-object element, on which `m.get` raises `AttributeError`. -/
inductive ParsedItem where
  | obj (name : Option JsonValue) (ms : Option JsonValue)
  | nonObject
deriving DecidableEq, Repr

/-- The exceptions line 102 can raise, uncaught. -/
inductive PyError where
  | attributeError
  | valueError
  | typeError
deriving DecidableEq, Repr

/-- The `Marker` object as line 102 actually builds it: the dataclass does
not enforce `str`, so `name` holds whatever JSON value `m.get('name', '')`
found (default the empty string); `ms` holds the converted int. -/
structure PyMarker where
  name : JsonValue
  ms : Int
deriving DecidableEq, Repr

/-- The value of a non-empty all-digit numeral, `none` otherwise. -/
def digitsToNat? (ds : List Char) : Option Nat :=
  if ds = [] then none
  else if ds.all Char.isDigit then
    some (ds.foldl (fun n c => n * 10 + (c.toNat - '0'.toNat)) 0)
  else none

/-- `int(s)` on a string, via its character list: an optional minus sign
followed by decimal digits (Python additionally strips whitespace and
accepts `+` and digit-group underscores; immaterial for these claims). -/
def pyIntOfStr : List Char → Option Int
  | '-' :: ds => (digitsToNat? ds).map (fun n => -(n : Int))
  | ds => (digitsToNat? ds).map (fun n => (n : Int))

/-- `int(v)` on a JSON value. -/
def pyInt : JsonValue → Except PyError Int
  | .jint n => .ok n
  | .jstr s =>
    match pyIntOfStr s.data with
    | some n => .ok n
    | none => .error .valueError
  | .jother => .error .typeError

/-- One step of line 102's comprehension. -/
def markerOfItem : ParsedItem → Except PyError PyMarker
  | .nonObject => .error .attributeError
  | .obj nm ms => do
    let msv ← pyInt (ms.getD (.jint 0))
    pure { name := nm.getD (.jstr ""), ms := msv }

/-- Line 102's comprehension over the whole array: the first raising element
aborts `load_for` with its exception. -/
def markersOfItems : List ParsedItem → Except PyError (List PyMarker)
  | [] => .ok []
  | i :: t => do
    let m ← markerOfItem i
    let r ← markersOfItems t
    pure (m :: r)

/-- Refined content of one sidecar file: `unreadable` when `open` or
`json.load` raises (missing, unreadable or not valid JSON — `load_json`
returns the default `[]`), or the parsed JSON array, well-typed or not.
(A file parsing to a non-array JSON value is outside this refinement; the
array shape is the only one `save` ever writes.) -/
inductive ParsedFile where
  | unreadable
  | arr (items : List ParsedItem)
deriving DecidableEq, Repr

/-- Refined lines 101-102: `data = load_json(path, [])` followed by the
marker comprehension — the empty list for an unreadable file, and otherwise
either the mapped markers or the uncaught exception. -/
def loadMarkers : ParsedFile → Except PyError (List PyMarker)
  | .unreadable => .ok []
  | .arr items => markersOfItems items

/-! ### Line layout (`WaveformWidget._calculate_layout`, lines 380-417) -/

/-- Lines 388-392: `time_per_line = max(5000, int(30000 / zoom_level))`. -/
def timePerLine (z : ℚ) : ℤ :=
  max 5000 (Int.floor ((30000 : ℚ) / z))

/-- Line 395: `total_lines = int(np.ceil(duration_ms / time_per_line))`. -/
def totalLines (D : ℤ) (z : ℚ) : ℤ :=
  Int.ceil ((D : ℚ) / ((timePerLine z : ℤ) : ℚ))

/-- Line 406: `start_ms = i * time_per_line`. -/
def lineStart (T i : ℤ) : ℤ := i * T

/-- Line 407: `end_ms = min((i + 1) * time_per_line, duration_ms)`. -/
def lineEnd (D T i : ℤ) : ℤ := min ((i + 1) * T) D

/-! ### Envelope extractor (`AudioProcessor.get_waveform_segment`, lines 251-291) -/

/-- `numpy.min` over one non-empty reshaped row (the `[]` case is never hit:
every bucket has length `bucket_size ≥ 1`). -/
def minD : List ℚ → ℚ
  | [] => 0
  | h :: t => t.foldl min h

/-- `numpy.max` over one non-empty reshaped row. -/
def maxD : List ℚ → ℚ
  | [] => 0
  | h :: t => t.foldl max h

/-- Lines 267-288, from the normalised sample array onwards: empty input gives
two empty arrays; an input no longer than `resolution` is returned twice
unchanged; otherwise the array is trimmed to a multiple of
`bucket_size = len(arr) // resolution` (clamped to at least 1), reshaped into
rows of `bucket_size`, and reduced row-wise to minima and maxima. -/
def get_waveform_segment (arr : List ℚ) (resolution : ℕ) : List ℚ × List ℚ :=
  if arr.length = 0 then ([], [])
  else if arr.length ≤ resolution then (arr, arr)
  else
    let bs0 := arr.length / resolution
    let bucketSize := if bs0 < 1 then 1 else bs0
    let trimmedLen := arr.length - arr.length % bucketSize
    let trimmed := arr.take trimmedLen
    let buckets := (List.range (trimmedLen / bucketSize)).map
      (fun i => (trimmed.drop (i * bucketSize)).take bucketSize)
    (buckets.map minD, buckets.map maxD)

/-- The samples underlying bucket `i` (bucket size `b`) of the original
array: the contiguous slice `arr[i*b : (i+1)*b]`. -/
def bucketOf (arr : List ℚ) (b i : ℕ) : List ℚ :=
  (arr.drop (i * b)).take b

/-- Sortedness by position, the collection invariant of the marker store. -/
def sortedByMs (l : List Marker) : Prop :=
  l.Sorted markerLe

/-! ### Concrete instances used as witnesses and counterexamples -/

/-- A file system with no sidecar files at all. -/
def emptyFS : FS := fun _ => FileContent.missing

/-- A concrete seven-sample window. -/
def exSamples7 : List ℚ := [0, 1, 2, 3, 4, 5, 6]

/-- A concrete manager state with an active source and two sorted markers
(the scenario of spec §8: `m1` at 5000 ms, `m2` at 20000 ms). -/
def exManager : MarkersManager :=
  { markers := [⟨"m1", 5000⟩, ⟨"m2", 20000⟩], audio_path := some "a.mp3",
    loop_enabled := false, loop_start := none, loop_end := none }

/-! ## Helper lemmas -/

lemma foldl_min_mem : ∀ (t : List ℚ) (h : ℚ), t.foldl min h ∈ h :: t := by
  intro t
  induction t with
  | nil => intro h; simp
  | cons a t ih =>
    intro h
    show t.foldl min (min h a) ∈ h :: a :: t
    have H := ih (min h a)
    rcases List.mem_cons.mp H with H1 | H1
    · rw [H1]
      rcases min_choice h a with hc | hc <;> rw [hc]
      · exact List.mem_cons_self _ _
      · exact List.mem_cons_of_mem _ (List.mem_cons_self _ _)
    · exact List.mem_cons_of_mem _ (List.mem_cons_of_mem _ H1)

lemma foldl_min_le : ∀ (t : List ℚ) (h x : ℚ), x ∈ h :: t → t.foldl min h ≤ x := by
  intro t
  induction t with
  | nil =>
    intro h x hx
    rcases List.mem_singleton.mp hx with rfl
    exact le_refl _
  | cons a t ih =>
    intro h x hx
    show t.foldl min (min h a) ≤ x
    have base : t.foldl min (min h a) ≤ min h a :=
      ih (min h a) (min h a) (List.mem_cons_self _ _)
    rcases List.mem_cons.mp hx with rfl | hx'
    · exact base.trans (min_le_left _ _)
    · rcases List.mem_cons.mp hx' with rfl | hx''
      · exact base.trans (min_le_right _ _)
      · exact ih (min h a) x (List.mem_cons_of_mem _ hx'')

lemma foldl_max_mem : ∀ (t : List ℚ) (h : ℚ), t.foldl max h ∈ h :: t := by
  intro t
  induction t with
  | nil => intro h; simp
  | cons a t ih =>
    intro h
    show t.foldl max (max h a) ∈ h :: a :: t
    have H := ih (max h a)
    rcases List.mem_cons.mp H with H1 | H1
    · rw [H1]
      rcases max_choice h a with hc | hc <;> rw [hc]
      · exact List.mem_cons_self _ _
      · exact List.mem_cons_of_mem _ (List.mem_cons_self _ _)
    · exact List.mem_cons_of_mem _ (List.mem_cons_of_mem _ H1)

lemma le_foldl_max : ∀ (t : List ℚ) (h x : ℚ), x ∈ h :: t → x ≤ t.foldl max h := by
  intro t
  induction t with
  | nil =>
    intro h x hx
    rcases List.mem_singleton.mp hx with rfl
    exact le_refl _
  | cons a t ih =>
    intro h x hx
    show x ≤ t.foldl max (max h a)
    have base : max h a ≤ t.foldl max (max h a) :=
      ih (max h a) (max h a) (List.mem_cons_self _ _)
    rcases List.mem_cons.mp hx with rfl | hx'
    · exact (le_max_left _ _).trans base
    · rcases List.mem_cons.mp hx' with rfl | hx''
      · exact (le_max_right _ _).trans base
      · exact ih (max h a) x (List.mem_cons_of_mem _ hx'')

lemma minD_mem {l : List ℚ} (h : l ≠ []) : minD l ∈ l := by
  cases l with
  | nil => exact absurd rfl h
  | cons a t => exact foldl_min_mem t a

lemma minD_le {l : List ℚ} (x : ℚ) (hx : x ∈ l) : minD l ≤ x := by
  cases l with
  | nil => simp at hx
  | cons a t => exact foldl_min_le t a x hx

lemma maxD_mem {l : List ℚ} (h : l ≠ []) : maxD l ∈ l := by
  cases l with
  | nil => exact absurd rfl h
  | cons a t => exact foldl_max_mem t a

lemma le_maxD {l : List ℚ} (x : ℚ) (hx : x ∈ l) : x ≤ maxD l := by
  cases l with
  | nil => simp at hx
  | cons a t => exact le_foldl_max t a x hx

lemma take_drop_of_take (l : List ℚ) (T k b : ℕ) (h : k + b ≤ T) :
    ((l.take T).drop k).take b = (l.drop k).take b := by
  rw [List.drop_take, List.take_take]
  congr 1
  omega

/-- `L - L % b` is exactly `(L / b) * b`, the trimmed length. -/
lemma trimmed_eq (L b : ℕ) : L - L % b = L / b * b :=
  Nat.sub_eq_of_eq_add ((Nat.div_add_mod' L b).symm)

lemma trimmed_div (L b : ℕ) (hb : 0 < b) : (L - L % b) / b = L / b := by
  rw [trimmed_eq, Nat.mul_div_cancel _ hb]

/-- Closed form of the `L > N` branch of `get_waveform_segment`: with
`b = L / N` buckets of size `b`, the result maps `minD` / `maxD` over the
contiguous slices `arr[i*b : (i+1)*b]`. -/
lemma segment_eq_buckets (arr : List ℚ) (N : ℕ) (h1 : 1 ≤ N) (h2 : N < arr.length) :
    get_waveform_segment arr N =
      ((List.range (arr.length / (arr.length / N))).map
         (fun i => minD (bucketOf arr (arr.length / N) i)),
       (List.range (arr.length / (arr.length / N))).map
         (fun i => maxD (bucketOf arr (arr.length / N) i))) := by
  have hL0 : ¬ arr.length = 0 := by omega
  have hLN : ¬ arr.length ≤ N := by omega
  have hbpos : 0 < arr.length / N := Nat.div_pos (le_of_lt h2) h1
  have hb' : ¬ arr.length / N < 1 := by omega
  simp only [get_waveform_segment, if_neg hL0, if_neg hLN, if_neg hb']
  rw [trimmed_div arr.length (arr.length / N) hbpos, Prod.mk.injEq]
  have hslice : ∀ i ∈ List.range (arr.length / (arr.length / N)),
      ((arr.take (arr.length - arr.length % (arr.length / N))).drop
          (i * (arr.length / N))).take (arr.length / N)
        = bucketOf arr (arr.length / N) i := by
    intro i hi
    have hi' : i + 1 ≤ arr.length / (arr.length / N) := List.mem_range.mp hi
    have hbound : i * (arr.length / N) + arr.length / N
        ≤ arr.length - arr.length % (arr.length / N) := by
      rw [trimmed_eq]
      calc i * (arr.length / N) + arr.length / N
          = (i + 1) * (arr.length / N) := by ring
        _ ≤ arr.length / (arr.length / N) * (arr.length / N) :=
            Nat.mul_le_mul_right _ hi'
    exact take_drop_of_take arr _ _ _ hbound
  constructor <;>
    (rw [List.map_map]
     apply List.map_congr_left
     intro i hi
     simp only [Function.comp_apply]
     rw [hslice i hi])

lemma bucket_length (arr : List ℚ) (b i : ℕ)
    (hi : i < arr.length / b) : (bucketOf arr b i).length = b := by
  unfold bucketOf
  rw [List.length_take, List.length_drop]
  have h4 : b + i * b ≤ arr.length := by
    calc b + i * b = (i + 1) * b := by ring
      _ ≤ arr.length / b * b := Nat.mul_le_mul_right _ hi
      _ ≤ arr.length := Nat.div_mul_le_self _ _
  exact Nat.min_eq_left (Nat.le_sub_of_add_le h4)

lemma buckets_join (arr : List ℚ) (b : ℕ) :
    ∀ n, ((List.range n).map (bucketOf arr b)).flatten = arr.take (n * b) := by
  intro n
  induction n with
  | zero => simp
  | succ k ih =>
    rw [List.range_succ, List.map_append, List.flatten_append, ih]
    simp only [List.map_cons, List.map_nil, List.flatten_cons, List.flatten_nil,
      List.append_nil]
    rw [Nat.succ_mul, List.take_add]
    rfl

lemma map_record_roundtrip (l : List Marker) :
    (l.map recordOfMarker).map markerOfRecord = l := by
  induction l with
  | nil => rfl
  | cons a t ih =>
    show markerOfRecord (recordOfMarker a) :: (t.map recordOfMarker).map markerOfRecord
        = a :: t
    rw [ih]
    rfl

lemma sortMarkers_sorted (l : List Marker) : sortedByMs (sortMarkers l) :=
  List.sorted_insertionSort markerLe l

lemma getLast_ge_of_pairwise {l : List Marker} (hs : l.Pairwise markerLe) {m : Marker}
    (h : l.getLast? = some m) : ∀ x ∈ l, markerLe x m := by
  obtain ⟨ys, rfl⟩ := List.getLast?_eq_some_iff.1 h
  rw [List.pairwise_append] at hs
  intro x hx
  rcases List.mem_append.mp hx with hx | hx
  · exact hs.2.2 x hx m (List.mem_singleton_self m)
  · rcases List.mem_singleton.mp hx with rfl
    show x.ms ≤ x.ms
    exact le_refl _

lemma head_le_of_pairwise {l : List Marker} (hs : l.Pairwise markerLe) {m : Marker}
    (h : l.head? = some m) : ∀ x ∈ l, markerLe m x := by
  obtain ⟨ys, rfl⟩ := List.head?_eq_some_iff.1 h
  intro x hx
  rcases List.mem_cons.mp hx with rfl | hx'
  · show x.ms ≤ x.ms
    exact le_refl _
  · exact (List.pairwise_cons.mp hs).1 x hx'

/-! ## Theorems -/

/-- Claim C3: with the loop set from two present bounds `s < e`, `should_loop`
returns the start bound iff the position is at or past the end bound; the
5000/10000 examples behave as specified; and with a bound absent or
`start ≥ end`, `should_loop` is `none` at every position. -/
theorem should_loop_spec (st : MarkersManager) (s e : Int) (h : s < e) :
    (∀ c, should_loop (set_loop st (some s) (some e)) c =
      if e ≤ c then some s else none) ∧
    should_loop (set_loop st (some 5000) (some 10000)) 9999 = none ∧
    should_loop (set_loop st (some 5000) (some 10000)) 10000 = some 5000 ∧
    should_loop (set_loop st (some 5000) (some 10000)) 10001 = some 5000 ∧
    (∀ a c, should_loop (set_loop st none a) c = none) ∧
    (∀ a c, should_loop (set_loop st a none) c = none) ∧
    (∀ a b c, b ≤ a → should_loop (set_loop st (some a) (some b)) c = none) := by
  refine ⟨?_, rfl, rfl, rfl, ?_, ?_, ?_⟩
  · intro c
    simp [should_loop, set_loop, h, ge_iff_le]
  · intro a c
    cases a <;> simp [should_loop, set_loop]
  · intro a c
    cases a <;> simp [should_loop, set_loop]
  · intro a b c hba
    simp [should_loop, set_loop, not_lt.mpr hba]

/-- Witness for C3 at `s = 5000`, `e = 10000` and the initial manager state. -/
theorem should_loop_spec_witness :
    should_loop (set_loop initManager (some 5000) (some 10000)) 10000 = some 5000 :=
  (should_loop_spec initManager 5000 10000 (by norm_num)).2.2.1

/-- Claim C4, counterexample: `set_loop(10, 5)` (both bounds present but
`start ≥ end`) disables the loop, yet the stored bounds are the supplied
values, not cleared to `None`. -/
theorem set_loop_counterexample :
    (set_loop initManager (some 10) (some 5)).loop_enabled = false ∧
    (set_loop initManager (some 10) (some 5)).loop_start = some 10 ∧
    (set_loop initManager (some 10) (some 5)).loop_end = some 5 :=
  ⟨rfl, rfl, rfl⟩

/-- Claim C4 as amended: after `set_loop(start_ms, end_ms)` the loop is
enabled iff both bounds are present and `start_ms < end_ms`; in every case
the stored bounds are set to the given arguments (so they are cleared exactly
when the arguments are absent), and the operation is total. -/
theorem set_loop_amended (st : MarkersManager) (a b : Option Int) :
    ((set_loop st a b).loop_enabled = true ↔
      ∃ s e, a = some s ∧ b = some e ∧ s < e) ∧
    (set_loop st a b).loop_start = a ∧
    (set_loop st a b).loop_end = b := by
  refine ⟨?_, rfl, rfl⟩
  cases a <;> cases b <;> simp [set_loop]

/-- Claim C9: a non-empty input no longer than the resolution is returned
unchanged as both envelope arrays, and the empty window yields two empty
sequences. -/
theorem envelope_identity (arr : List ℚ) (N : ℕ) (h1 : arr ≠ []) (h2 : arr.length ≤ N) :
    get_waveform_segment arr N = (arr, arr) ∧
    ∀ M : ℕ, get_waveform_segment [] M = ([], []) := by
  have h0 : ¬ arr.length = 0 := by simpa using h1
  exact ⟨by simp [get_waveform_segment, h0, h2], fun M => rfl⟩

/-- Witness for C9 on the two-sample window `[1, 2]` with resolution 5. -/
theorem envelope_identity_witness :
    get_waveform_segment [(1 : ℚ), 2] 5 = ([(1 : ℚ), 2], [(1 : ℚ), 2]) ∧
    ∀ M : ℕ, get_waveform_segment [] M = ([], []) :=
  envelope_identity [(1 : ℚ), 2] 5 (by simp) (by simp)

/-- Claim C10: `load_for` replaces only the marker list and the active source
path; the loop flag and both loop bounds are unchanged, for every prior state
and file-system content. -/
theorem load_for_frame (st : MarkersManager) (fs : FS) (p : String) :
    (load_for st fs p).loop_enabled = st.loop_enabled ∧
    (load_for st fs p).loop_start = st.loop_start ∧
    (load_for st fs p).loop_end = st.loop_end ∧
    (load_for st fs p).audio_path = some p :=
  ⟨rfl, rfl, rfl, rfl⟩

/-- Claim C6, code evaluated at the failing inputs: the sidecar `["x"]`
(a valid JSON array whose element is a string) makes line 102 raise
`AttributeError`, and `[{"ms": "abc"}]` makes it raise `ValueError`, both
uncaught — so `load_for` does not never-raise.  A missing or unparsable
file does yield the empty marker set, a well-typed record loads without
raising, and `save` with no active path reports `false` instead of
raising. -/
theorem load_for_raises_on_ill_typed :
    loadMarkers (ParsedFile.arr [ParsedItem.nonObject])
      = Except.error PyError.attributeError ∧
    loadMarkers (ParsedFile.arr [ParsedItem.obj none (some (JsonValue.jstr "abc"))])
      = Except.error PyError.valueError ∧
    loadMarkers ParsedFile.unreadable = Except.ok [] ∧
    loadMarkers
        (ParsedFile.arr [ParsedItem.obj (some (JsonValue.jstr "m1")) (some (JsonValue.jint 5000))])
      = Except.ok [PyMarker.mk (JsonValue.jstr "m1") 5000] ∧
    save initManager emptyFS true = (false, emptyFS) :=
  ⟨rfl, rfl, rfl, rfl, rfl⟩

/-- Claim C7: with an active source, saving succeeds on a writable file
system and reloading for the same source restores the exact marker list
(hence the same `(name, ms)` multiset). -/
theorem save_load_roundtrip (st : MarkersManager) (fs : FS) (p : String)
    (h : st.audio_path = some p) :
    (save st fs true).1 = true ∧
    (load_for st (save st fs true).2 p).markers = st.markers := by
  have hmap : ∀ l : List Marker, (l.map recordOfMarker).map markerOfRecord = l := by
    intro l
    induction l with
    | nil => rfl
    | cons a t ih =>
      show markerOfRecord (recordOfMarker a) :: (t.map recordOfMarker).map markerOfRecord
          = a :: t
      rw [ih]
      rfl
  unfold save
  rw [h]
  simp [load_for, load_json, hmap]

/-- Witness for C7 on a two-marker manager over the empty file system. -/
theorem save_load_roundtrip_witness :
    (save exManager emptyFS true).1 = true ∧
    (load_for exManager (save exManager emptyFS true).2 "a.mp3").markers
      = exManager.markers :=
  save_load_roundtrip exManager emptyFS "a.mp3" rfl

/-- Claim C1, counterexample: for the seven-sample window and resolution 4
(so `L = 7 > 4 = N ≥ 1`), both result arrays have length 7, not
`N = min(resolution, sample count) = 4` — `bucket_size = 7 // 4 = 1` leaves
all seven buckets. -/
theorem envelope_length_counterexample :
    exSamples7.length = 7 ∧
    (1 : ℕ) ≤ 4 ∧ 4 < exSamples7.length ∧
    min 4 exSamples7.length = 4 ∧
    (get_waveform_segment exSamples7 4).1.length = 7 ∧
    (get_waveform_segment exSamples7 4).2.length = 7 :=
  ⟨rfl, by norm_num, by decide, rfl, rfl, rfl⟩

/-- Claim C1 as amended: for `L > N ≥ 1` both result arrays have length
exactly `L / (L / N)` (integer division); this is always at least `N` but
need not equal `min(N, L) = N` (e.g. `L = 7`, `N = 4` gives 7). -/
theorem envelope_length_amended (arr : List ℚ) (N : ℕ)
    (h1 : 1 ≤ N) (h2 : N < arr.length) :
    (get_waveform_segment arr N).1.length = arr.length / (arr.length / N) ∧
    (get_waveform_segment arr N).2.length = arr.length / (arr.length / N) ∧
    N ≤ arr.length / (arr.length / N) := by
  have hbpos : 0 < arr.length / N := Nat.div_pos (le_of_lt h2) h1
  refine ⟨?_, ?_, ?_⟩
  · rw [segment_eq_buckets arr N h1 h2]
    simp
  · rw [segment_eq_buckets arr N h1 h2]
    simp
  · rw [Nat.le_div_iff_mul_le hbpos]
    calc N * (arr.length / N) = arr.length / N * N := Nat.mul_comm _ _
      _ ≤ arr.length := Nat.div_mul_le_self _ _

/-- Witness for the amended C1 at `L = 7`, `N = 3`: both lengths are
`7 / (7 / 3) = 3` and `3 ≤ 3`. -/
theorem envelope_length_amended_witness :
    (get_waveform_segment exSamples7 3).1.length = exSamples7.length / (exSamples7.length / 3) ∧
    (get_waveform_segment exSamples7 3).2.length = exSamples7.length / (exSamples7.length / 3) ∧
    3 ≤ exSamples7.length / (exSamples7.length / 3) :=
  envelope_length_amended exSamples7 3 (by norm_num) (by decide)

/-- Claim C8: for `L > N ≥ 1` with `b = L // N`, the trimmed prefix of the
input is partitioned exactly into the contiguous, non-overlapping slices
`arr[i*b : (i+1)*b]`, each of size `b`, and entry `i` of the result holds the
true minimum and the true maximum of slice `i`, with `mins[i] ≤ maxs[i]`. -/
theorem envelope_bucket_minmax (arr : List ℚ) (N b cnt : ℕ)
    (h1 : 1 ≤ N) (h2 : N < arr.length)
    (hb : b = arr.length / N)
    (hcnt : cnt = (get_waveform_segment arr N).1.length) :
    ((List.range cnt).map (bucketOf arr b)).flatten
        = arr.take (arr.length - arr.length % b) ∧
    (∀ i, i < cnt → (bucketOf arr b i).length = b) ∧
    (∀ i, i < cnt →
      ∃ mi Mi,
        (get_waveform_segment arr N).1[i]? = some mi ∧
        (get_waveform_segment arr N).2[i]? = some Mi ∧
        mi ∈ bucketOf arr b i ∧ (∀ x ∈ bucketOf arr b i, mi ≤ x) ∧
        Mi ∈ bucketOf arr b i ∧ (∀ x ∈ bucketOf arr b i, x ≤ Mi) ∧
        mi ≤ Mi) := by
  subst hb
  have hbpos : 0 < arr.length / N := Nat.div_pos (le_of_lt h2) h1
  have hseg := segment_eq_buckets arr N h1 h2
  have hlen : (get_waveform_segment arr N).1.length
      = arr.length / (arr.length / N) := by
    rw [hseg]; simp
  rw [hlen] at hcnt
  subst hcnt
  refine ⟨?_, ?_, ?_⟩
  · rw [buckets_join, trimmed_eq]
  · intro i hi
    exact bucket_length arr (arr.length / N) i hi
  · intro i hi
    have hne : bucketOf arr (arr.length / N) i ≠ [] := by
      intro hnil
      have hl := bucket_length arr (arr.length / N) i hi
      rw [hnil] at hl
      simp at hl
      omega
    refine ⟨minD (bucketOf arr (arr.length / N) i),
            maxD (bucketOf arr (arr.length / N) i), ?_, ?_,
            minD_mem hne, fun x hx => minD_le x hx,
            maxD_mem hne, fun x hx => le_maxD x hx,
            minD_le _ (maxD_mem hne)⟩
    · rw [hseg]
      simp [List.getElem?_map, List.getElem?_range hi]
    · rw [hseg]
      simp [List.getElem?_map, List.getElem?_range hi]

/-- Witness for C8 at `L = 7`, `N = 3` (`b = 2`, three buckets), bucket 0. -/
theorem envelope_bucket_minmax_witness :
    (bucketOf exSamples7 2 0).length = 2 :=
  (envelope_bucket_minmax exSamples7 3 2 3 (by norm_num) (by decide)
    (by decide) (by rfl)).2.1 0 (by norm_num)

/-- Claim C5: every mutation — `add_marker`, `clear`, and `load_for` of a
file persisted from a sorted in-memory list — leaves the collection sorted
ascending by position; on a sorted collection `nearest_before` returns the
greatest marker strictly below the query (none when no marker qualifies) and
`nearest_after` the least marker strictly above it (none likewise). -/
theorem marker_store_sorted_invariant :
    (∀ (st : MarkersManager) (fs : FS) (w : Bool) (p : Int) (nm : String),
        sortedByMs (add_marker st fs w p nm).1.markers) ∧
    (∀ (st : MarkersManager) (fs : FS) (w : Bool),
        sortedByMs (clear st fs w).1.markers) ∧
    (∀ (st : MarkersManager) (fs : FS) (src : String) (l : List Marker),
        sortedByMs l →
        fs (markers_path_for src) = FileContent.good (l.map recordOfMarker) →
        sortedByMs (load_for st fs src).markers) ∧
    (∀ (st : MarkersManager) (q : Int) (m : Marker), sortedByMs st.markers →
        nearest_before st q = some m →
        m ∈ st.markers ∧ m.ms < q ∧ ∀ x ∈ st.markers, x.ms < q → x.ms ≤ m.ms) ∧
    (∀ (st : MarkersManager) (q : Int), nearest_before st q = none →
        ∀ x ∈ st.markers, ¬ x.ms < q) ∧
    (∀ (st : MarkersManager) (q : Int) (m : Marker), sortedByMs st.markers →
        nearest_after st q = some m →
        m ∈ st.markers ∧ q < m.ms ∧ ∀ x ∈ st.markers, q < x.ms → m.ms ≤ x.ms) ∧
    (∀ (st : MarkersManager) (q : Int), nearest_after st q = none →
        ∀ x ∈ st.markers, ¬ q < x.ms) := by
  refine ⟨?_, ?_, ?_, ?_, ?_, ?_, ?_⟩
  · intro st fs w p nm
    exact sortMarkers_sorted _
  · intro st fs w
    exact List.sorted_nil
  · intro st fs src l hl hfs
    show sortedByMs ((load_json (fs (markers_path_for src)) []).map markerOfRecord)
    rw [hfs]
    show sortedByMs ((l.map recordOfMarker).map markerOfRecord)
    rw [map_record_roundtrip]
    exact hl
  · intro st q m hs hnb
    have hmf : m ∈ st.markers.filter (fun x => x.ms < q) :=
      List.mem_of_getLast?_eq_some hnb
    have hm := List.mem_filter.mp hmf
    refine ⟨hm.1, by simpa using hm.2, ?_⟩
    intro x hx hxq
    have hxf : x ∈ st.markers.filter (fun y => y.ms < q) :=
      List.mem_filter.mpr ⟨hx, by simpa using hxq⟩
    exact getLast_ge_of_pairwise (hs.filter _) hnb x hxf
  · intro st q hnb x hx
    simp only [nearest_before, List.getLast?_eq_none_iff,
      List.filter_eq_nil_iff] at hnb
    simpa using hnb x hx
  · intro st q m hs hna
    have hmf : m ∈ st.markers.filter (fun x => q < x.ms) := by
      obtain ⟨ys, hys⟩ := List.head?_eq_some_iff.1 hna
      rw [hys]
      exact List.mem_cons_self _ _
    have hm := List.mem_filter.mp hmf
    refine ⟨hm.1, by simpa using hm.2, ?_⟩
    intro x hx hxq
    have hxf : x ∈ st.markers.filter (fun y => q < y.ms) :=
      List.mem_filter.mpr ⟨hx, by simpa using hxq⟩
    exact head_le_of_pairwise (hs.filter _) hna x hxf
  · intro st q hna x hx
    simp only [nearest_after, List.head?_eq_none_iff,
      List.filter_eq_nil_iff] at hna
    simpa using hna x hx

/-- Witness for C5: on the two-marker manager (`m1` at 5000, `m2` at 20000),
`nearest_before 10000` returns `m1` and it is the tightest lower marker. -/
theorem marker_store_sorted_invariant_witness :
    Marker.mk "m1" 5000 ∈ exManager.markers ∧
    (Marker.mk "m1" 5000).ms < 10000 ∧
    ∀ x ∈ exManager.markers, x.ms < 10000 → x.ms ≤ (Marker.mk "m1" 5000).ms :=
  marker_store_sorted_invariant.2.2.2.1 exManager 10000 (Marker.mk "m1" 5000)
    (by unfold sortedByMs; decide) (by decide)

/-- Claim C2: the layout computes `time_per_line = max(5000, 30000 / Z)` ms
(integer truncation of the quotient) and `total_lines = ceil(D / T)`; each
line `i` spans `[i*T, min((i+1)*T, D))`, line 0 starts at 0, consecutive
lines are contiguous, and the last line ends exactly at `D`; in particular
`D = 3600000`, `Z = 1` give `T = 30000` and 120 lines. -/
theorem layout_partition (D : ℤ) (z : ℚ) (hD : 0 < D) (hz : 0 < z) :
    timePerLine z = max 5000 (Int.floor ((30000 : ℚ) / z)) ∧
    totalLines D z = Int.ceil ((D : ℚ) / ((timePerLine z : ℤ) : ℚ)) ∧
    (∀ i : ℤ, lineStart (timePerLine z) i = i * timePerLine z) ∧
    (∀ i : ℤ, lineEnd D (timePerLine z) i = min ((i + 1) * timePerLine z) D) ∧
    lineStart (timePerLine z) 0 = 0 ∧
    (∀ i : ℤ, 0 ≤ i → i + 1 < totalLines D z →
        lineEnd D (timePerLine z) i = lineStart (timePerLine z) (i + 1)) ∧
    1 ≤ totalLines D z ∧
    lineEnd D (timePerLine z) (totalLines D z - 1) = D ∧
    timePerLine 1 = 30000 ∧
    totalLines 3600000 1 = 120 := by
  have hT : (0 : ℤ) < timePerLine z :=
    lt_of_lt_of_le (by norm_num) (le_max_left 5000 (Int.floor ((30000 : ℚ) / z)))
  have hTQ : (0 : ℚ) < ((timePerLine z : ℤ) : ℚ) := by exact_mod_cast hT
  have hDQ : (0 : ℚ) < (D : ℚ) := by exact_mod_cast hD
  have htotal : 1 ≤ totalLines D z := by
    show 1 ≤ Int.ceil ((D : ℚ) / ((timePerLine z : ℤ) : ℚ))
    have h0 : (0 : ℚ) < (D : ℚ) / ((timePerLine z : ℤ) : ℚ) := div_pos hDQ hTQ
    have := Int.ceil_pos.mpr h0
    omega
  have hcontig : ∀ i : ℤ, 0 ≤ i → i + 1 < totalLines D z →
      lineEnd D (timePerLine z) i = lineStart (timePerLine z) (i + 1) := by
    intro i hi0 hi
    show min ((i + 1) * timePerLine z) D = (i + 1) * timePerLine z
    apply min_eq_left
    have hlt : ((i + 1 : ℤ) : ℚ) < (D : ℚ) / ((timePerLine z : ℤ) : ℚ) := by
      rw [← Int.lt_ceil]
      exact hi
    have h2 := (lt_div_iff₀ hTQ).mp hlt
    have h3 : (i + 1) * timePerLine z < D := by exact_mod_cast h2
    exact le_of_lt h3
  have hlast : lineEnd D (timePerLine z) (totalLines D z - 1) = D := by
    show min ((totalLines D z - 1 + 1) * timePerLine z) D = D
    have he : totalLines D z - 1 + 1 = totalLines D z := by ring
    rw [he]
    apply min_eq_right
    have hle : (D : ℚ) / ((timePerLine z : ℤ) : ℚ)
        ≤ ((totalLines D z : ℤ) : ℚ) := Int.le_ceil _
    have h2 := (div_le_iff₀ hTQ).mp hle
    have h3 : D ≤ totalLines D z * timePerLine z := by exact_mod_cast h2
    exact h3
  have htpl1 : timePerLine 1 = 30000 := by
    show max 5000 (Int.floor ((30000 : ℚ) / 1)) = 30000
    norm_num
  have htot1 : totalLines 3600000 1 = 120 := by
    show Int.ceil (((3600000 : ℤ) : ℚ) / ((timePerLine 1 : ℤ) : ℚ)) = 120
    rw [htpl1]
    norm_num
  exact ⟨rfl, rfl, fun i => rfl, fun i => rfl, zero_mul _, hcontig, htotal,
    hlast, htpl1, htot1⟩

/-- Witness for C2 at `D = 3600000` ms, `Z = 1`: one hour at default zoom is
120 lines of 30 s each, the last ending at the duration. -/
theorem layout_partition_witness :
    1 ≤ totalLines 3600000 1 ∧
    lineEnd 3600000 (timePerLine 1) (totalLines 3600000 1 - 1) = 3600000 ∧
    timePerLine 1 = 30000 ∧
    totalLines 3600000 1 = 120 := by
  obtain ⟨-, -, -, -, -, -, h7, h8, h9, h10⟩ :=
    layout_partition 3600000 1 (by norm_num) (by norm_num)
  exact ⟨h7, h8, h9, h10⟩

end Audinux
